import Mathlib

/-!
Verification development for the `claude-dashboard` telemetry exporter.

The definitions below are a shallow embedding of the exporter's TypeScript
source (`src/exporter/sync.ts`, `src/exporter/process-watcher.ts`, the
parsers file and the daemon entry point).  JS `Date` values are modelled by
their epoch-millisecond integer; JS strings by Lean `String` (or `List Char`
where character-level processing matters); the remote datastore tables by
functional values (a `Finset` of conflict keys for `events`, association
lists for keyed tables); fallible OS calls by `Option` inputs.
-/

namespace LOExporter

/-- A parsed log entry as consumed by the sync layer (`LogEntry` in the
parsers module).  `parsedTimestamp` is the epoch-millisecond value of the
parsed JS `Date`, `none` when the timestamp could not be parsed. -/
structure LogEntry where
  timestamp : String
  parsedTimestamp : Option Int
  project : String
  branch : String
  emoji : String
  eventType : String
  eventText : String
deriving DecidableEq, Repr

/-- Conflict key of the `events` table: the unique index
`(project, event_type, event_text, timestamp)` used by the upsert in
`insertEvents` (src/exporter/sync.ts). -/
structure EventKey where
  project : String
  eventType : String
  eventText : String
  timestamp : Int
deriving DecidableEq, Repr

/-- The row key `insertEvents` builds for an entry: entries without a parsed
timestamp are filtered out (`entries.filter((e) => e.parsedTimestamp)`),
the rest are mapped to rows carrying the conflict-key columns. -/
def rowKey (e : LogEntry) : Option EventKey :=
  e.parsedTimestamp.map fun t => ⟨e.project, e.eventType, e.eventText, t⟩

/-- Split a list into consecutive chunks of size `n`
(the `for (let i = 0; i < rows.length; i += BATCH_SIZE)` loop). -/
def chunksOf (n : Nat) : List α → List (List α)
  | [] => []
  | x :: xs => (x :: xs.take (n - 1)) :: chunksOf n (xs.drop (n - 1))
termination_by l => l.length
decreasing_by simp only [List.length_drop, List.length_cons]; omega

/-- Batch size used by `insertEvents`. -/
def BATCH_SIZE : Nat := 500

/-- The batch loop of `insertEvents`.  `fails i` says whether the datastore
rejects the `i`-th batch.  A successful batch is an upsert with
`ignoreDuplicates: true` on the `events` conflict key: rows already present
are skipped, the rest are added, and the whole batch length is added to
`inserted`.  A failed batch leaves the table unchanged and adds its length
to `errors`.  Returns `(table, inserted, errors)`. -/
def insertBatches (fails : Nat → Bool) :
    List (List EventKey) → Nat → Finset EventKey → Finset EventKey × Nat × Nat
  | [], _, table => (table, 0, 0)
  | b :: bs, i, table =>
    if fails i then
      let r := insertBatches fails bs (i + 1) table
      (r.1, r.2.1, r.2.2 + b.length)
    else
      let r := insertBatches fails bs (i + 1) (table ∪ b.toFinset)
      (r.1, r.2.1 + b.length, r.2.2)

/-- `insertEvents` (src/exporter/sync.ts): filter out entries without a
parsed timestamp, map to rows, and upsert in batches of 500 with
`ignoreDuplicates` on `(project, event_type, event_text, timestamp)`.
`fails` is the per-batch outcome of the remote calls. -/
def insertEvents (fails : Nat → Bool) (table : Finset EventKey)
    (entries : List LogEntry) : Finset EventKey × Nat × Nat :=
  insertBatches fails (chunksOf BATCH_SIZE (entries.filterMap rowKey)) 0 table

/-- The all-batches-succeed outcome. -/
def noFail : Nat → Bool := fun _ => false

theorem chunksOf_flatten (n : Nat) : ∀ (l : List α), (chunksOf n l).flatten = l
  | [] => by simp [chunksOf]
  | x :: xs => by
    rw [chunksOf]
    simp only [List.flatten_cons, List.cons_append]
    rw [chunksOf_flatten n (xs.drop (n - 1))]
    simp [List.take_append_drop]
termination_by l => l.length
decreasing_by simp only [List.length_drop, List.length_cons]; omega

theorem insertBatches_fst_noFail (bs : List (List EventKey)) :
    ∀ (i : Nat) (T : Finset EventKey),
      (insertBatches noFail bs i T).1 = T ∪ bs.flatten.toFinset := by
  induction bs with
  | nil => intro i T; simp [insertBatches]
  | cons b bs ih =>
    intro i T
    simp [insertBatches, noFail, ih, List.toFinset_append, Finset.union_assoc]

/-- With no batch failures, the table after `insertEvents` is the old table
together with the conflict keys of the timestamped entries. -/
theorem insertEvents_fst (T : Finset EventKey) (entries : List LogEntry) :
    (insertEvents noFail T entries).1 = T ∪ (entries.filterMap rowKey).toFinset := by
  rw [insertEvents, insertBatches_fst_noFail, chunksOf_flatten]

/-- C2: event-insert idempotence.  Modelling the `events` table as the set of
rows keyed by the conflict target with insert-or-skip semantics, for every
list of entries `E` and partition of `E` (up to permutation) into `E1` and
`E2`, running `insertEvents E1` then `insertEvents E2` leaves the table in
the same state as a single `insertEvents E`. -/
theorem insertEvents_partition_idempotent (T : Finset EventKey)
    (E E1 E2 : List LogEntry) (hpart : E.Perm (E1 ++ E2)) :
    (insertEvents noFail (insertEvents noFail T E1).1 E2).1 =
      (insertEvents noFail T E).1 := by
  have hkeys : (E.filterMap rowKey).toFinset = ((E1 ++ E2).filterMap rowKey).toFinset :=
    List.toFinset_eq_of_perm _ _ (hpart.filterMap rowKey)
  simp [insertEvents_fst, hkeys, List.filterMap_append, List.toFinset_append,
    Finset.union_assoc]

/-- A sample entry used in witnesses. -/
def sampleEntry1 : LogEntry :=
  ⟨"10/11 10:00 AM", some 1000, "lorf-site", "main", "🟢", "session_start", "🟢 start"⟩

/-- A second sample entry used in witnesses. -/
def sampleEntry2 : LogEntry :=
  ⟨"10/11 10:01 AM", some 61000, "lorf-site", "main", "🔧", "tool", "🔧 Bash"⟩

theorem insertEvents_partition_idempotent_witness :
    (insertEvents noFail (insertEvents noFail ∅ [sampleEntry1]).1 [sampleEntry2]).1 =
      (insertEvents noFail ∅ [sampleEntry1, sampleEntry2]).1 :=
  insertEvents_partition_idempotent ∅ [sampleEntry1, sampleEntry2]
    [sampleEntry1] [sampleEntry2] (List.Perm.refl _)

theorem insertBatches_count (fails : Nat → Bool) (bs : List (List EventKey)) :
    ∀ (i : Nat) (T : Finset EventKey),
      (insertBatches fails bs i T).2.1 + (insertBatches fails bs i T).2.2 =
        bs.flatten.length := by
  induction bs with
  | nil => intro i T; simp [insertBatches]
  | cons b bs ih =>
    intro i T
    have h1 := ih (i + 1) T
    have h2 := ih (i + 1) (T ∪ b.toFinset)
    by_cases h : fails i = true <;>
      simp only [insertBatches, h, if_true, if_false, Bool.false_eq_true,
        List.flatten_cons, List.length_append] <;> omega

theorem insertBatches_inserted_noFail (bs : List (List EventKey)) :
    ∀ (i : Nat) (T : Finset EventKey),
      (insertBatches noFail bs i T).2.1 = bs.flatten.length := by
  induction bs with
  | nil => intro i T; simp [insertBatches]
  | cons b bs ih =>
    intro i T
    have h1 := ih (i + 1) (T ∪ b.toFinset)
    simp only [insertBatches, noFail, Bool.false_eq_true, if_false,
      List.flatten_cons, List.length_append]
    omega

theorem length_filterMap_rowKey (entries : List LogEntry) :
    (entries.filterMap rowKey).length =
      (entries.filter (fun e => e.parsedTimestamp.isSome)).length := by
  induction entries with
  | nil => rfl
  | cons e es ih =>
    cases h : e.parsedTimestamp <;>
      simp [rowKey, List.filterMap_cons, List.filter_cons, h, ih]

/-- C10: the `inserted` count of `insertEvents` counts attempted rows, not
new rows.  When every batch succeeds the returned `inserted` equals the
number of timestamped input entries, for any prior table state `T` (in
particular when the table already holds some or all of the rows, so the
upsert skips them); and for any batch outcomes, `inserted + errors` equals
the number of timestamped input entries. -/
theorem insertEvents_counts_attempted (entries : List LogEntry) :
    (∀ (fails : Nat → Bool) (T : Finset EventKey), (∀ i, fails i = false) →
        (insertEvents fails T entries).2.1 =
          (entries.filter (fun e => e.parsedTimestamp.isSome)).length) ∧
    (∀ (fails : Nat → Bool) (T : Finset EventKey),
        (insertEvents fails T entries).2.1 + (insertEvents fails T entries).2.2 =
          (entries.filter (fun e => e.parsedTimestamp.isSome)).length) := by
  constructor
  · intro fails T hok
    have hf : fails = noFail := funext fun i => hok i
    rw [hf, insertEvents, insertBatches_inserted_noFail, chunksOf_flatten,
      length_filterMap_rowKey]
  · intro fails T
    rw [insertEvents, insertBatches_count, chunksOf_flatten, length_filterMap_rowKey]

theorem insertEvents_counts_attempted_witness :
    (insertEvents noFail {⟨"lorf-site", "session_start", "🟢 start", 1000⟩}
        [sampleEntry1, sampleEntry2]).2.1 =
      ([sampleEntry1, sampleEntry2].filter (fun e => e.parsedTimestamp.isSome)).length :=
  (insertEvents_counts_attempted [sampleEntry1, sampleEntry2]).1 noFail
    {⟨"lorf-site", "session_start", "🟢 start", 1000⟩} (fun _ => rfl)

/-! ### Facility row and the ownership of the `status` column (C1) -/

/-- Aggregate metrics written to the facility row (`FacilityMetrics` in
src/exporter/sync.ts).  Opaque JSON payloads are modelled as association
lists. -/
structure FacilityMetrics where
  tokensLifetime : Int
  tokensToday : Int
  sessionsLifetime : Int
  messagesLifetime : Int
  modelStats : List (String × Int × Int × Int × Int × Int)
  hourDistribution : List (String × Int)
  firstSessionDate : Option String
deriving DecidableEq, Repr

/-- Argument of `updateFacilityStatus`
(`interface FacilityUpdate extends FacilityMetrics`): it carries a `status`
value, but the current `updateFacilityStatus` does not write it. -/
structure FacilityUpdate extends FacilityMetrics where
  status : String
  activeAgents : Int
  activeProjects : List (String × Bool)
deriving DecidableEq, Repr

/-- The singleton `facility_status` row (id = 1). -/
structure FacilityStatusRow where
  status : String
  active_agents : Int
  active_projects : List (String × Bool)
  tokens_lifetime : Int
  tokens_today : Int
  sessions_lifetime : Int
  messages_lifetime : Int
  model_stats : List (String × Int × Int × Int × Int × Int)
  hour_distribution : List (String × Int)
  first_session_date : Option String
  updated_at : Int
deriving DecidableEq, Repr

/-- `metricsToRow` (src/exporter/sync.ts): the column assignments shared by
`updateFacilityStatus` and `updateFacilityMetrics` — aggregate columns plus
`updated_at`, nothing else. -/
def metricsToRow (m : FacilityMetrics) (now : Int) (row : FacilityStatusRow) :
    FacilityStatusRow :=
  { row with
    tokens_lifetime := m.tokensLifetime
    tokens_today := m.tokensToday
    sessions_lifetime := m.sessionsLifetime
    messages_lifetime := m.messagesLifetime
    model_stats := m.modelStats
    hour_distribution := m.hourDistribution
    first_session_date := m.firstSessionDate
    updated_at := now }

/-- `updateFacilityStatus` (src/exporter/sync.ts, current version): writes
`metricsToRow` plus `active_agents` and `active_projects` to the singleton
row.  The `status` field of the argument is not among the written columns. -/
def updateFacilityStatus (u : FacilityUpdate) (now : Int)
    (row : FacilityStatusRow) : FacilityStatusRow :=
  { metricsToRow u.toFacilityMetrics now row with
    active_agents := u.activeAgents
    active_projects := u.activeProjects }

/-- `updateFacilityMetrics` (src/exporter/sync.ts): writes only
`metricsToRow`. -/
def updateFacilityMetrics (m : FacilityMetrics) (now : Int)
    (row : FacilityStatusRow) : FacilityStatusRow :=
  metricsToRow m now row

/-- The facility part of a `ProcessDiff` (src/exporter/process-watcher.ts). -/
structure ProcessDiffFacility where
  status : String
  activeAgents : Int
  activeProjects : List (String × Bool)
deriving DecidableEq, Repr

/-- The `facility_status` write issued by `pushAgentState`
(src/exporter/sync.ts): only `active_agents`, `active_projects` and
`updated_at`; the diff's `status` field is not written. -/
def pushAgentStateFacility (f : ProcessDiffFacility) (now : Int)
    (row : FacilityStatusRow) : FacilityStatusRow :=
  { row with
    active_agents := f.activeAgents
    active_projects := f.activeProjects
    updated_at := now }

/-- `setFacilitySwitch` (src/exporter/sync.ts): the single flip point used by
the open command, the close command and the daemon's auto-close latch. -/
def setFacilitySwitch (status : String) (now : Int)
    (row : FacilityStatusRow) : FacilityStatusRow :=
  { row with status := status, updated_at := now }

/-- Argument rows of `batchUpsertProjectTelemetry`
(`ProjectTelemetryUpdate` in src/exporter/sync.ts). -/
structure ProjectTelemetryUpdate where
  project : String
  tokensLifetime : Int
  tokensToday : Int
  modelsToday : List (String × Int)
  sessionsLifetime : Int
  messagesLifetime : Int
  toolCallsLifetime : Int
  agentSpawnsLifetime : Int
  teamMessagesLifetime : Int
  activeAgents : Int
  agentCount : Int
deriving DecidableEq, Repr

/-- A `project_telemetry` row (`ProjectTelemetryRow` in
src/exporter/sync.ts); the agent columns are optional because the
aggregate-loop writes skip them. -/
structure ProjectTelemetryRow where
  tokens_lifetime : Int
  tokens_today : Int
  models_today : List (String × Int)
  sessions_lifetime : Int
  messages_lifetime : Int
  tool_calls_lifetime : Int
  agent_spawns_lifetime : Int
  team_messages_lifetime : Int
  updated_at : Int
  active_agents : Option Int
  agent_count : Option Int
deriving DecidableEq, Repr

/-- `toRow` inside `batchUpsertProjectTelemetry`: agent fields are included
unless `skipAgentFields` is set. -/
def telemetryToRow (skipAgentFields : Bool) (now : Int)
    (u : ProjectTelemetryUpdate) : ProjectTelemetryRow :=
  { tokens_lifetime := u.tokensLifetime
    tokens_today := u.tokensToday
    models_today := u.modelsToday
    sessions_lifetime := u.sessionsLifetime
    messages_lifetime := u.messagesLifetime
    tool_calls_lifetime := u.toolCallsLifetime
    agent_spawns_lifetime := u.agentSpawnsLifetime
    team_messages_lifetime := u.teamMessagesLifetime
    updated_at := now
    active_agents := if skipAgentFields then none else some u.activeAgents
    agent_count := if skipAgentFields then none else some u.agentCount }

/-- Upsert one keyed row into an association-list table (conflict key
`project`). -/
def upsertAssoc (tbl : List (String × ProjectTelemetryRow)) (key : String)
    (row : ProjectTelemetryRow) : List (String × ProjectTelemetryRow) :=
  if (tbl.lookup key).isSome then
    tbl.map fun kv => if kv.1 = key then (key, row) else kv
  else
    tbl ++ [(key, row)]

/-- The datastore state relevant to the status-flag ownership claim: the
singleton facility row plus the `project_telemetry` table. -/
structure Datastore where
  facility : FacilityStatusRow
  projectTelemetry : List (String × ProjectTelemetryRow)
deriving DecidableEq, Repr

/-- `batchUpsertProjectTelemetry` (src/exporter/sync.ts): a multi-row upsert
on conflict key `project` into `project_telemetry` (the per-row fallback
writes the same rows).  It never touches `facility_status`. -/
def batchUpsertProjectTelemetry (updates : List ProjectTelemetryUpdate)
    (skipAgentFields : Bool) (now : Int) (ds : Datastore) : Datastore :=
  { ds with
    projectTelemetry :=
      updates.foldl
        (fun tbl u => upsertAssoc tbl u.project (telemetryToRow skipAgentFields now u))
        ds.projectTelemetry }

/-- C1: ownership of the facility open/closed flag.  The `status` column of
the `facility_status` singleton row is preserved by every write of the
daemon's aggregate-loop path (`updateFacilityMetrics`,
`updateFacilityStatus`, `batchUpsertProjectTelemetry`) and by the watcher's
`pushAgentState` facility write; only `setFacilitySwitch` — the flip point
shared by the open command, the close command and the auto-close latch —
sets it. -/
theorem facility_status_flag_ownership :
    (∀ (m : FacilityMetrics) (now : Int) (row : FacilityStatusRow),
        (updateFacilityMetrics m now row).status = row.status) ∧
    (∀ (u : FacilityUpdate) (now : Int) (row : FacilityStatusRow),
        (updateFacilityStatus u now row).status = row.status) ∧
    (∀ (us : List ProjectTelemetryUpdate) (skip : Bool) (now : Int) (ds : Datastore),
        (batchUpsertProjectTelemetry us skip now ds).facility = ds.facility) ∧
    (∀ (f : ProcessDiffFacility) (now : Int) (row : FacilityStatusRow),
        (pushAgentStateFacility f now row).status = row.status) ∧
    (∀ (st : String) (now : Int) (row : FacilityStatusRow),
        (setFacilitySwitch st now row).status = st) :=
  ⟨fun _ _ _ => rfl, fun _ _ _ => rfl, fun _ _ _ _ => rfl,
    fun _ _ _ => rfl, fun _ _ _ => rfl⟩

/-! ### Gap backfill on daemon startup (C3) -/

/-- `toSlug` in the daemon: look up a directory name in the slug map
(`slugMap.get(dirName) ?? null`), here an association list. -/
def toSlug (slugMap : List (String × String)) (dirName : String) : Option String :=
  slugMap.lookup dirName

/-- `filterAndMapEntries` in the daemon: keep only entries whose project
resolves to a (truthy) slug, and replace the project field by the slug. -/
def filterAndMapEntries (slugMap : List (String × String))
    (entries : List LogEntry) : List LogEntry :=
  entries.filterMap fun e =>
    match if e.project = "" then none else toSlug slugMap e.project with
    | some slug => if slug = "" then none else some { e with project := slug }
    | none => none

/-- Gap threshold of `gapBackfill` (`GAP_THRESHOLD_MS`), in milliseconds. -/
def GAP_THRESHOLD_MS : Int := 2 * 60 * 1000

/-- The effect of the daemon's `gapBackfill` on the `events` table
(src/unnamed/part_009).  `lastUpdated` is the facility row's `updated_at`
instant (`none` when the row or column is missing, making the gap
`Infinity`); `now` is `Date.now()`.  If the gap is below the threshold the
function returns before issuing any write.  Otherwise the entries whose
parsed timestamp is strictly after `lastUpdated` (all entries when it is
`none`) are replayed through `insertAndTrackActivity`, i.e. slug-filtered
by `filterAndMapEntries` and upserted by `insertEvents`. -/
def gapBackfillEvents (slugMap : List (String × String))
    (table : Finset EventKey) (now : Int) (lastUpdated : Option Int)
    (allEntries : List LogEntry) : Finset EventKey :=
  match lastUpdated with
  | some t =>
    if now - t < GAP_THRESHOLD_MS then table
    else
      let gapEntries := allEntries.filter fun e =>
        match e.parsedTimestamp with
        | some ts => decide (t < ts)
        | none => false
      if gapEntries.isEmpty then table
      else (insertEvents noFail table (filterAndMapEntries slugMap gapEntries)).1
  | none =>
    if allEntries.isEmpty then table
    else (insertEvents noFail table (filterAndMapEntries slugMap allEntries)).1

/-- C3: gap backfill on daemon startup.  Below the 120 s threshold the
`events` table is untouched; at or above it the table gains exactly the
(slug-mapped) rows of the log entries whose parsed timestamp is strictly
after the facility row's last-update instant; with no last-update instant
every entry is replayed. -/
theorem gapBackfill_replays_entries_after_last_update
    (slugMap : List (String × String)) (table : Finset EventKey)
    (now : Int) (allEntries : List LogEntry) :
    (∀ t : Int, now - t < GAP_THRESHOLD_MS →
        gapBackfillEvents slugMap table now (some t) allEntries = table) ∧
    (∀ t : Int, GAP_THRESHOLD_MS ≤ now - t →
        gapBackfillEvents slugMap table now (some t) allEntries =
          table ∪ ((filterAndMapEntries slugMap
            (allEntries.filter fun e =>
              match e.parsedTimestamp with
              | some ts => decide (t < ts)
              | none => false)).filterMap rowKey).toFinset) ∧
    (gapBackfillEvents slugMap table now none allEntries =
      table ∪ ((filterAndMapEntries slugMap allEntries).filterMap rowKey).toFinset) := by
  refine ⟨fun t ht => ?_, fun t ht => ?_, ?_⟩
  · simp [gapBackfillEvents, ht]
  · have hnot : ¬ now - t < GAP_THRESHOLD_MS := not_lt.mpr ht
    by_cases hemp : (allEntries.filter fun e =>
        match e.parsedTimestamp with
        | some ts => decide (t < ts)
        | none => false).isEmpty
    · rw [gapBackfillEvents]
      simp only [hnot, if_false, hemp, if_true]
      rw [List.isEmpty_iff] at hemp
      simp [hemp, filterAndMapEntries]
    · rw [gapBackfillEvents]
      simp only [hnot, if_false, hemp, Bool.false_eq_true, if_false]
      rw [insertEvents_fst]
  · by_cases hemp : allEntries.isEmpty
    · rw [List.isEmpty_iff] at hemp
      simp [gapBackfillEvents, hemp, filterAndMapEntries]
    · rw [gapBackfillEvents]
      simp only [hemp, Bool.false_eq_true, if_false]
      rw [insertEvents_fst]

theorem gapBackfill_replays_entries_after_last_update_witness :
    gapBackfillEvents [("lorf-site", "lorf")] ∅ 1000000 (some 30000)
        [sampleEntry1, sampleEntry2] =
      ∅ ∪ ((filterAndMapEntries [("lorf-site", "lorf")]
        ([sampleEntry1, sampleEntry2].filter fun e =>
          match e.parsedTimestamp with
          | some ts => decide ((30000 : Int) < ts)
          | none => false)).filterMap rowKey).toFinset :=
  (gapBackfill_replays_entries_after_last_update [("lorf-site", "lorf")] ∅ 1000000
    [sampleEntry1, sampleEntry2]).2.1 30000 (by decide)

/-! ### Process watcher: sliding window (C5), tick state (C9) -/

/-- Number of recent ticks in a PID's sliding window (`WINDOW_SIZE`). -/
def WINDOW_SIZE : Nat := 40

/-- Fraction of the window that must show activity (`ACTIVE_THRESHOLD`).
The source compares IEEE doubles; for window lengths up to 40 the exact
rational comparison below gives the same verdict on every input, since the
smallest nonzero gap between a quotient `k/n` (`n ≤ 40`) and `3/20` is far
larger than the rounding error of a single double division. -/
def ACTIVE_THRESHOLD : ℚ := 15 / 100

/-- `countTruthy` (src/exporter/process-watcher.ts): count true samples
without allocating a filtered copy. -/
def countTruthy (values : List Bool) : Nat :=
  values.foldl (fun n v => if v then n + 1 else n) 0

/-- `ProcessWatcher.isWindowActive`: a missing or empty window is inactive,
otherwise the true-sample density is compared against the threshold. -/
def isWindowActive (w : Option (List Bool)) : Bool :=
  match w with
  | none => false
  | some window =>
    if window.isEmpty then false
    else decide (ACTIVE_THRESHOLD ≤ (countTruthy window : ℚ) / window.length)

/-- `ProcessWatcher.pushWindow`: append the fresh sample and drop the oldest
when the window exceeds `WINDOW_SIZE`; a PID without a window starts a fresh
singleton window. -/
def pushWindow (w : Option (List Bool)) (active : Bool) : List Bool :=
  match w with
  | some existing =>
    let w2 := existing ++ [active]
    if WINDOW_SIZE < w2.length then w2.drop 1 else w2
  | none => [active]

theorem countTruthy_eq_count (values : List Bool) :
    countTruthy values = values.count true := by
  suffices h : ∀ n, values.foldl (fun n v => if v then n + 1 else n) n =
      n + values.count true by
    simpa using h 0
  induction values with
  | nil => intro n; simp
  | cons v vs ih =>
    intro n
    cases v
    · simp [List.count_cons, ih]
    · simp [List.count_cons, ih]
      omega

/-- C5: the windowed-active predicate.  For a full window of `W = 40`
samples the PID is windowed-active iff the true-sample density is at least
`θ = 15/100`; in particular every window with 5 true samples out of 40
(density 12.5 %) is idle and every window with 6 out of 40 (density 15 %)
is active; a PID with no window samples (missing or empty window) is never
windowed-active. -/
theorem windowed_active_iff_density :
    (∀ w : List Bool, w.length = 40 →
        (isWindowActive (some w) = true ↔
          ACTIVE_THRESHOLD ≤ (countTruthy w : ℚ) / 40)) ∧
    (∀ w : List Bool, w.length = 40 → countTruthy w = 5 →
        isWindowActive (some w) = false) ∧
    (∀ w : List Bool, w.length = 40 → countTruthy w = 6 →
        isWindowActive (some w) = true) ∧
    isWindowActive none = false ∧ isWindowActive (some []) = false := by
  have hiff : ∀ w : List Bool, w.length = 40 →
      (isWindowActive (some w) = true ↔
        ACTIVE_THRESHOLD ≤ (countTruthy w : ℚ) / 40) := by
    intro w hlen
    have hne : w.isEmpty = false := by
      cases w with
      | nil => simp at hlen
      | cons a l => rfl
    rw [isWindowActive]
    simp [hne, hlen]
  refine ⟨hiff, fun w hlen hc => ?_, fun w hlen hc => ?_, rfl, rfl⟩
  · have h := hiff w hlen
    rw [hc] at h
    have hlt : ¬ (ACTIVE_THRESHOLD ≤ ((5 : Nat) : ℚ) / 40) := by
      rw [ACTIVE_THRESHOLD]; norm_num
    rcases Bool.eq_false_or_eq_true (isWindowActive (some w)) with hb | hb
    · exact absurd (h.mp hb) hlt
    · exact hb
  · have h := hiff w hlen
    rw [hc] at h
    refine h.mpr ?_
    rw [ACTIVE_THRESHOLD]
    norm_num

theorem windowed_active_iff_density_witness :
    isWindowActive (some (List.replicate 6 true ++ List.replicate 34 false)) = true :=
  windowed_active_iff_density.2.2.1 _ (by decide) (by decide)

/-- Value type of a watcher snapshot (`SnapshotEntry`). -/
structure SnapshotEntry where
  slug : String
  isActive : Bool
deriving DecidableEq, Repr

/-- One process reported by the scanner (`getFacilityState().processes`). -/
structure Proc where
  pid : Nat
  slug : String
  isActive : Bool
deriving DecidableEq, Repr

/-- The mutable state of a `ProcessWatcher`: three per-PID maps, modelled as
functions to `Option`. -/
structure WatcherState where
  previous : Nat → Option SnapshotEntry
  activityWindow : Nat → Option (List Bool)
  reportedActive : Nat → Option Bool

/-- The state of a freshly constructed `ProcessWatcher`: all maps empty. -/
def initialWatcherState : WatcherState :=
  ⟨fun _ => none, fun _ => none, fun _ => none⟩

/-- The `current` map built at the top of `tick`; `Map.set` keeps the last
entry for a duplicated PID. -/
def currentMap (scan : List Proc) (p : Nat) : Option SnapshotEntry :=
  (scan.reverse.find? fun pr => pr.pid == p).map fun pr => ⟨pr.slug, pr.isActive⟩

/-- The state evolution of `ProcessWatcher.tick`
(src/exporter/process-watcher.ts): every live PID gets one sample pushed
into its window and its reported bit created or flipped; every PID of the
previous snapshot missing from the fresh scan has its window and reported
bit deleted; `previous` becomes the fresh snapshot.  A PID's own
windowed-active value depends only on its own (just pushed) window, so the
loop order of the source is irrelevant. -/
def tickState (scan : List Proc) (s : WatcherState) : WatcherState :=
  let current := currentMap scan
  let window2 : Nat → Option (List Bool) := fun p =>
    match current p with
    | some e => some (pushWindow (s.activityWindow p) e.isActive)
    | none => if (s.previous p).isSome then none else s.activityWindow p
  let reported2 : Nat → Option Bool := fun p =>
    match current p with
    | some _ =>
      let wa := isWindowActive (window2 p)
      if (s.previous p).isSome then
        let was := (s.reportedActive p).getD false
        if wa && !was then some true
        else if !wa && was then some false
        else s.reportedActive p
      else some wa
    | none => if (s.previous p).isSome then none else s.reportedActive p
  { previous := current, activityWindow := window2, reportedActive := reported2 }

/-- Invariant of a reachable watcher state: the three maps share their key
set and every stored window fits in `WINDOW_SIZE`. -/
def WatcherInv (s : WatcherState) : Prop :=
  (∀ p, (s.activityWindow p).isSome ↔ (s.previous p).isSome) ∧
  (∀ p, (s.reportedActive p).isSome ↔ (s.previous p).isSome) ∧
  (∀ p w, s.activityWindow p = some w → w.length ≤ WINDOW_SIZE)

theorem currentMap_isSome (scan : List Proc) (p : Nat) :
    (currentMap scan p).isSome ↔ p ∈ scan.map Proc.pid := by
  rw [currentMap, Option.isSome_map', List.find?_isSome]
  constructor
  · rintro ⟨pr, hmem, hpid⟩
    exact List.mem_map.mpr ⟨pr, List.mem_reverse.mp hmem, by simpa using hpid⟩
  · intro h
    rcases List.mem_map.mp h with ⟨pr, hmem, hpid⟩
    exact ⟨pr, List.mem_reverse.mpr hmem, by simp [hpid]⟩

theorem pushWindow_length_le (w : Option (List Bool)) (a : Bool)
    (h : ∀ l, w = some l → l.length ≤ WINDOW_SIZE) :
    (pushWindow w a).length ≤ WINDOW_SIZE := by
  match w with
  | none => simp [pushWindow, WINDOW_SIZE]
  | some l =>
    have hl := h l rfl
    rw [pushWindow]
    rcases Nat.lt_or_ge WINDOW_SIZE (l ++ [a]).length with hlt | hge
    · rw [if_pos hlt]
      simp only [List.length_drop, List.length_append, List.length_cons,
        List.length_nil] at hlt ⊢
      omega
    · rw [if_neg (Nat.not_lt.mpr hge)]
      simp only [List.length_append, List.length_cons, List.length_nil] at hge ⊢
      omega

/-- C9: after every `tick` from a state satisfying the watcher invariant
(which the initial state does, and which `tick` preserves), the key sets of
the previous-snapshot map, the activity-window map and the last-reported
map all equal the PID set of that tick's process scan, and every stored
window has at most `WINDOW_SIZE = 40` samples — state for vanished PIDs
never accumulates. -/
theorem tickState_domains (scan : List Proc) (s : WatcherState)
    (hInv : WatcherInv s) :
    (∀ p, ((tickState scan s).previous p).isSome ↔ p ∈ scan.map Proc.pid) ∧
    (∀ p, ((tickState scan s).activityWindow p).isSome ↔ p ∈ scan.map Proc.pid) ∧
    (∀ p, ((tickState scan s).reportedActive p).isSome ↔ p ∈ scan.map Proc.pid) ∧
    (∀ p w, (tickState scan s).activityWindow p = some w → w.length ≤ WINDOW_SIZE) ∧
    WatcherInv (tickState scan s) ∧ WatcherInv initialWatcherState := by
  obtain ⟨hw, hr, hlen⟩ := hInv
  have hprev : ∀ p, ((tickState scan s).previous p).isSome ↔ p ∈ scan.map Proc.pid :=
    fun p => currentMap_isSome scan p
  have hwin : ∀ p, ((tickState scan s).activityWindow p).isSome ↔ p ∈ scan.map Proc.pid := by
    intro p
    rw [← currentMap_isSome]
    show (match currentMap scan p with
      | some e => some (pushWindow (s.activityWindow p) e.isActive)
      | none => if (s.previous p).isSome then none else s.activityWindow p).isSome ↔ _
    cases hc : currentMap scan p with
    | some e => simp
    | none =>
      simp only [Option.isSome_none]
      by_cases hp : (s.previous p).isSome
      · simp [hp]
      · have hwp : s.activityWindow p = none :=
          Option.not_isSome_iff_eq_none.mp (fun hx => hp ((hw p).mp hx))
        have hp2 : (s.previous p).isSome = false := Bool.not_eq_true _ |>.mp hp
        simp [hp2, hwp]
  have hrep : ∀ p, ((tickState scan s).reportedActive p).isSome ↔ p ∈ scan.map Proc.pid := by
    intro p
    rw [← currentMap_isSome]
    show (match currentMap scan p with
      | some _ =>
        let wa := isWindowActive (match currentMap scan p with
          | some e => some (pushWindow (s.activityWindow p) e.isActive)
          | none => if (s.previous p).isSome then none else s.activityWindow p)
        if (s.previous p).isSome then
          let was := (s.reportedActive p).getD false
          if wa && !was then some true
          else if !wa && was then some false
          else s.reportedActive p
        else some wa
      | none => if (s.previous p).isSome then none else s.reportedActive p).isSome ↔ _
    cases hc : currentMap scan p with
    | some e =>
      simp only [Option.isSome_some, iff_true]
      by_cases hp : (s.previous p).isSome
      · simp only [hp, if_true]
        have hrp : (s.reportedActive p).isSome := (hr p).mpr hp
        rcases Option.isSome_iff_exists.mp hrp with ⟨b, hb⟩
        cases hx : isWindowActive (some (pushWindow (s.activityWindow p) e.isActive)) <;>
          cases b <;> simp [hb, hc, hx]
      · simp [hp]
    | none =>
      simp only [Option.isSome_none]
      by_cases hp : (s.previous p).isSome
      · simp [hp]
      · have hrp2 : s.reportedActive p = none :=
          Option.not_isSome_iff_eq_none.mp (fun hx => hp ((hr p).mp hx))
        have hp2 : (s.previous p).isSome = false := Bool.not_eq_true _ |>.mp hp
        simp [hp2, hrp2]
  have hlen2 : ∀ p w, (tickState scan s).activityWindow p = some w →
      w.length ≤ WINDOW_SIZE := by
    intro p w
    show (match currentMap scan p with
      | some e => some (pushWindow (s.activityWindow p) e.isActive)
      | none => if (s.previous p).isSome then none else s.activityWindow p) = some w → _
    cases hc : currentMap scan p with
    | some e =>
      intro hsome
      have hw2 : pushWindow (s.activityWindow p) e.isActive = w := by
        simpa using hsome
      rw [← hw2]
      exact pushWindow_length_le _ _ (fun l hl => hlen p l hl)
    | none =>
      by_cases hp : (s.previous p).isSome
      · simp [hp]
      · simp only [hp, if_false]
        exact hlen p w
  refine ⟨hprev, hwin, hrep, hlen2, ⟨?_, ?_, hlen2⟩, ?_⟩
  · intro p; rw [hwin p, hprev p]
  · intro p; rw [hrep p, hprev p]
  · exact ⟨fun p => Iff.rfl, fun p => Iff.rfl,
      fun p w h => by simp [initialWatcherState] at h⟩

/-- A concrete scan used by the C9 witness. -/
def sampleScan : List Proc := [⟨100, "lorf-site", true⟩, ⟨200, "cc-dash", false⟩]

theorem tickState_domains_witness :
    ((tickState sampleScan initialWatcherState).previous 100).isSome ↔
      100 ∈ sampleScan.map Proc.pid :=
  (tickState_domains sampleScan initialWatcherState
    ⟨fun _ => Iff.rfl, fun _ => Iff.rfl,
      fun p w h => by simp [initialWatcherState] at h⟩).1 100

/-! ### Auto-close latch in the watcher loop (C6) -/

/-- Auto-close threshold (`AUTO_CLOSE_MS`): 2 hours in milliseconds. -/
def AUTO_CLOSE_MS : Nat := 2 * 60 * 60 * 1000

/-- The auto-close bookkeeping of the daemon's watcher loop:
`lastActiveAgentTime` and the boolean latch `autoCloseFired`
(src/unnamed/part_009). -/
structure AutoCloseState where
  lastActiveAgentTime : Nat
  autoCloseFired : Bool
deriving DecidableEq, Repr

/-- One iteration of the watcher loop's auto-close logic, given the current
clock `now` and the number of windowed-active agents seen by
`watcher.activeAgents`.  Returns the new state and whether this iteration
called `setFacilitySwitch "dormant"` (the two `Date.now()` reads of one
iteration are microseconds apart; against a 2 h threshold they are modelled
as the same instant). -/
def autoCloseStep (now activeAgents : Nat) (s : AutoCloseState) :
    AutoCloseState × Bool :=
  let s1 := if 0 < activeAgents then
    { lastActiveAgentTime := now, autoCloseFired := false } else s
  if s1.autoCloseFired = false ∧ AUTO_CLOSE_MS < now - s1.lastActiveAgentTime then
    ({ s1 with autoCloseFired := true }, true)
  else (s1, false)

/-- Run the watcher loop's auto-close logic over a trace of
`(now, activeAgents)` iterations, counting how many iterations fired the
auto-close write. -/
def autoCloseRun (s : AutoCloseState) : List (Nat × Nat) → AutoCloseState × Nat
  | [] => (s, 0)
  | x :: rest =>
    let r := autoCloseStep x.1 x.2 s
    let rr := autoCloseRun r.1 rest
    (rr.1, (if r.2 then 1 else 0) + rr.2)

theorem autoCloseStep_idle_no_change (now : Nat) (s : AutoCloseState)
    (h : (autoCloseStep now 0 s).2 = false) : (autoCloseStep now 0 s).1 = s := by
  rw [autoCloseStep] at h ⊢
  simp only [Nat.lt_irrefl, if_false] at h ⊢
  by_cases hc : s.autoCloseFired = false ∧ AUTO_CLOSE_MS < now - s.lastActiveAgentTime
  · rw [if_pos hc] at h
    simp at h
  · rw [if_neg hc]

theorem autoCloseRun_fired_idle (trace : List (Nat × Nat)) :
    ∀ s : AutoCloseState, s.autoCloseFired = true → (∀ x ∈ trace, x.2 = 0) →
      (autoCloseRun s trace).2 = 0 := by
  induction trace with
  | nil => intro s _ _; rfl
  | cons x rest ih =>
    intro s hf hidle
    have hx : x.2 = 0 := hidle x (List.mem_cons_self x rest)
    rw [autoCloseRun]
    have hstep : autoCloseStep x.1 x.2 s = (s, false) := by
      rw [hx, autoCloseStep]
      simp only [Nat.lt_irrefl, if_false, hf]
      simp
    rw [hstep]
    have h2 := ih s hf (fun y hy => hidle y (List.mem_cons_of_mem x hy))
    simp [h2]

/-- C6: the auto-close write is latched.  An iteration with any
windowed-active agent never fires (it resets the idle clock and the latch
instead); an iteration that fires has no windowed-active agent, an unfired
latch, and strictly more than 2 h elapsed since `lastActiveAgentTime` (the
last instant at which an agent was windowed-active); and over any run of
consecutive iterations with no windowed-active agents — a period of
continuous idleness, during which nothing resets the latch — the write
fires at most once. -/
theorem auto_close_fires_at_most_once :
    (∀ (now active : Nat) (s : AutoCloseState), 0 < active →
        (autoCloseStep now active s).2 = false) ∧
    (∀ (now active : Nat) (s : AutoCloseState), (autoCloseStep now active s).2 = true →
        active = 0 ∧ s.autoCloseFired = false ∧
          AUTO_CLOSE_MS < now - s.lastActiveAgentTime) ∧
    (∀ (s : AutoCloseState) (trace : List (Nat × Nat)), (∀ x ∈ trace, x.2 = 0) →
        (autoCloseRun s trace).2 ≤ 1) := by
  refine ⟨?_, ?_, ?_⟩
  · intro now active s hact
    rw [autoCloseStep]
    rw [if_pos hact]
    simp
  · intro now active s hfire
    rcases Nat.eq_zero_or_pos active with hz | hpos
    · subst hz
      rw [autoCloseStep] at hfire
      simp only [Nat.lt_irrefl, if_false] at hfire
      by_cases hc : s.autoCloseFired = false ∧ AUTO_CLOSE_MS < now - s.lastActiveAgentTime
      · exact ⟨rfl, hc.1, hc.2⟩
      · rw [if_neg hc] at hfire
        simp at hfire
    · exfalso
      rw [autoCloseStep, if_pos hpos] at hfire
      simp at hfire
  · intro s trace hidle
    induction trace generalizing s with
    | nil => simp [autoCloseRun]
    | cons x rest ih =>
      have hx : x.2 = 0 := hidle x (List.mem_cons_self x rest)
      have hrest : ∀ y ∈ rest, y.2 = 0 := fun y hy => hidle y (List.mem_cons_of_mem x hy)
      rw [autoCloseRun]
      cases hfire : (autoCloseStep x.1 x.2 s).2 with
      | true =>
        have hf2 : ((autoCloseStep x.1 x.2 s).1).autoCloseFired = true := by
          rw [hx] at hfire ⊢
          rw [autoCloseStep] at hfire ⊢
          simp only [Nat.lt_irrefl, if_false] at hfire ⊢
          by_cases hc : s.autoCloseFired = false ∧ AUTO_CLOSE_MS < x.1 - s.lastActiveAgentTime
          · rw [if_pos hc]
          · rw [if_neg hc] at hfire
            simp at hfire
        rw [autoCloseRun_fired_idle rest _ hf2 hrest]
        simp [hfire]
      | false =>
        have hsame : (autoCloseStep x.1 x.2 s).1 = s := by
          rw [hx] at hfire ⊢
          exact autoCloseStep_idle_no_change x.1 s hfire
        rw [hsame]
        simpa using ih s hrest

theorem auto_close_fires_at_most_once_witness :
    (autoCloseRun ⟨0, false⟩ [(10, 0), (7300000, 0), (7400000, 0)]).2 ≤ 1 :=
  auto_close_fires_at_most_once.2.2 ⟨0, false⟩ [(10, 0), (7300000, 0), (7400000, 0)]
    (by decide)

/-! ### Log tailer offset evolution (C4) -/

/-- The offset/read behaviour of `LogTailer.poll` (parsers module).  `statSize`
is the result of `statSync` (`none` when it throws), `readBytes` the result of
`readFileSync` (`none` when it throws); bytes are modelled as naturals.  The
whole body is wrapped in one `try/catch`, so a `statSync` failure leaves the
offset untouched, but the truncation reset (`this.offset = 0`) happens before
the read and persists even if the read then throws.  `poll` parses the decoded
slice into entries; the parsing does not touch the offset, so the model
returns the raw slice.  Returns `(new offset, bytes read)`. -/
def pollModel (statSize : Option Nat) (readBytes : Option (List Nat))
    (offset : Nat) : Nat × List Nat :=
  match statSize with
  | none => (offset, [])
  | some size =>
    let offset1 := if size < offset then 0 else offset
    if size = offset1 then (offset1, [])
    else
      match readBytes with
      | none => (offset1, [])
      | some bytes => (bytes.length, bytes.drop offset1)

/-- C4 counterexample: the claim "for every successful poll the stored offset
strictly increases" fails on the truncation case it quantifies over.  With
stored offset 5 and a stat-and-read-able file of 1 byte, the poll succeeds
and returns the whole 1-byte file, yet the new offset is 1, not greater
than 5.  (The size-equals-offset case is a second refutation: a successful
empty poll leaves the offset unchanged.) -/
theorem pollModel_truncation_offset_decreases :
    (pollModel (some 1) (some [7]) 5).1 = 1 ∧
    (pollModel (some 1) (some [7]) 5).2 = [7] ∧
    ¬ 5 < (pollModel (some 1) (some [7]) 5).1 ∧
    (pollModel (some 3) (some [7, 8, 9]) 3).1 = 3 := by decide

/-- C4 (amended): after every poll whose `statSync` succeeds and whose read
(when reached) returns the `size` bytes now on disk, the stored offset equals
that size: it strictly increases exactly when the file grew past the stored
offset (and the poll returns the slice past the old offset); it is unchanged
when the size equals the stored offset (empty result, no read); and on
truncation (size smaller than the stored offset) it is reset and becomes the
re-read file's length.  When `statSync` throws, the offset is unchanged and
the result empty. -/
theorem pollModel_offset_equals_size (offset size : Nat) (bytes : List Nat)
    (hread : bytes.length = size) :
    ((pollModel (some size) (some bytes) offset).1 = size ∧
      (pollModel (some size) (some bytes) offset).2 =
        bytes.drop (if size < offset then 0 else offset)) ∧
    (offset < size → offset < (pollModel (some size) (some bytes) offset).1 ∧
      (pollModel (some size) (some bytes) offset).2 = bytes.drop offset) ∧
    (size = offset → pollModel (some size) (some bytes) offset = (offset, [])) ∧
    (∀ rb, pollModel none rb offset = (offset, [])) := by
  have hmain : (pollModel (some size) (some bytes) offset).1 = size ∧
      (pollModel (some size) (some bytes) offset).2 =
        bytes.drop (if size < offset then 0 else offset) := by
    rw [pollModel]
    rcases Nat.lt_or_ge size offset with hlt | hge
    · simp only [hlt, if_true]
      by_cases hz : size = 0
      · have hb : bytes = [] := List.length_eq_zero.mp (hread.trans hz)
        subst hb
        simp only [hz, if_pos]
        simp [hz]
      · rw [if_neg hz]
        simp [hread]
    · have hnlt : ¬ size < offset := Nat.not_lt.mpr hge
      simp only [hnlt, if_false]
      by_cases heq : size = offset
      · simp only [heq, if_pos]
        refine ⟨trivial, ?_⟩
        rw [eq_comm, List.drop_eq_nil_iff]
        omega
      · rw [if_neg heq]
        simp [hread]
  refine ⟨hmain, fun hlt => ⟨?_, ?_⟩, fun heq => ?_, fun rb => rfl⟩
  · rw [hmain.1]; exact hlt
  · rw [hmain.2, if_neg (Nat.not_lt.mpr (Nat.le_of_lt hlt))]
  · rw [pollModel]
    subst heq
    simp

theorem pollModel_offset_equals_size_witness :
    (pollModel (some 3) (some [7, 8, 9]) 1).1 = 3 ∧
      (pollModel (some 3) (some [7, 8, 9]) 1).2 =
        [7, 8, 9].drop (if 3 < 1 then 0 else 1) :=
  (pollModel_offset_equals_size 1 3 [7, 8, 9] rfl).1

/-! ### Event parser: timestamps (C8) and log-line framing (C7)

Character-level processing is modelled on `List Char` (JS strings are UTF-16;
every pattern matched here is either ASCII or a whole emoji, where the two
representations agree).  JS `\s` and `String.prototype.trim` cover Unicode
whitespace; the log file is ASCII, so whitespace is modelled by
`Char.isWhitespace`. -/

/-- Whitespace, as used by the source's `trim` and `\s`. -/
def isWs (c : Char) : Bool := c.isWhitespace

/-- JS `String.prototype.trim`: drop whitespace from both ends. -/
def trimChars (cs : List Char) : List Char :=
  ((cs.dropWhile isWs).reverse.dropWhile isWs).reverse

/-- Worker for `stripAnsi` with a fuel argument; every step consumes at
least one input character, so fuel `cs.length` never runs out. -/
def stripAnsiAux : Nat → List Char → List Char
  | 0, cs => cs
  | _, [] => []
  | fuel + 1, c :: rest =>
    if c = Char.ofNat 27 then
      match rest with
      | '[' :: rest2 =>
        let body := rest2.takeWhile fun d => d.isDigit || d = ';'
        match rest2.drop body.length with
        | 'm' :: tail => stripAnsiAux fuel tail
        | _ => c :: stripAnsiAux fuel rest
      | _ => c :: stripAnsiAux fuel rest
    else c :: stripAnsiAux fuel rest

/-- `stripAnsi` (parsers module): remove every leftmost non-overlapping
match of the escape-sequence pattern `ESC [ [0-9;]* m`. -/
def stripAnsi (cs : List Char) : List Char := stripAnsiAux cs.length cs

/-- JS `String.prototype.split` with a one-character separator: an empty
string yields one empty part, `n` separators yield `n + 1` parts. -/
def splitOnChar (sep : Char) (cs : List Char) : List (List Char) :=
  cs.foldr
    (fun c acc =>
      match acc with
      | [] => [[c]]
      | grp :: rest => if c = sep then [] :: grp :: rest else (c :: grp) :: rest)
    [[]]

/-- The clock context of a parse: `now.getFullYear()`, `now.getMonth()`
(0-based) and `now.getDate()`. -/
structure Today where
  year : Int
  month0 : Int
  day : Int
deriving DecidableEq, Repr

/-- The arguments the source passes to the JS `Date` constructor:
`new Date(year, month0, day, hour, minute, second)` (`month0` is 0-based;
the constructor's normalisation of out-of-range components is not modelled
because no claim depends on it). -/
structure LDate where
  year : Int
  month0 : Int
  day : Int
  hour : Int
  minute : Int
  second : Int
deriving DecidableEq, Repr

/-- Digit value of a digit character (what `parseInt` contributes per
digit). -/
def charVal (c : Char) : Nat := c.toNat - 48

/-- The 12-to-24-hour conversion of the source (two independent `if`s on
mutually exclusive conditions). -/
def to24Hour (hour : Nat) (pm : Bool) : Nat :=
  if pm ∧ hour ≠ 12 then hour + 12
  else if ¬ pm ∧ hour = 12 then 0
  else hour

/-- The timezone abbreviations recognised (case-insensitively) by the
stripping regex `\s+(PST|PDT|EST|EDT|CST|CDT|MST|MDT|UTC)\s*$`. -/
def isTzAbbr (cs : List Char) : Bool :=
  let up := cs.map Char.toUpper
  up = ['P', 'S', 'T'] ∨ up = ['P', 'D', 'T'] ∨ up = ['E', 'S', 'T'] ∨
    up = ['E', 'D', 'T'] ∨ up = ['C', 'S', 'T'] ∨ up = ['C', 'D', 'T'] ∨
    up = ['M', 'S', 'T'] ∨ up = ['M', 'D', 'T'] ∨ up = ['U', 'T', 'C']

/-- The timezone-stripping `replace`: on the already-trimmed input the regex
matches exactly when the string ends in one whitespace run followed by a
recognised three-letter abbreviation; the leftmost match removes the whole
run and the abbreviation. -/
def stripTz (cs : List Char) : List Char :=
  match cs.reverse with
  | c3 :: c2 :: c1 :: rest =>
    if isTzAbbr [c1, c2, c3] && (match rest with | w :: _ => isWs w | [] => false) then
      (rest.dropWhile isWs).reverse
    else cs
  | _ => cs

/-- The tail matcher `\s*(AM|PM)$` (case-insensitive): returns
`some isPM`. -/
def matchAmPmTail (cs : List Char) : Option Bool :=
  match cs.dropWhile isWs with
  | [a, m] =>
    if (a = 'A' ∨ a = 'a') ∧ (m = 'M' ∨ m = 'm') then some false
    else if (a = 'P' ∨ a = 'p') ∧ (m = 'M' ∨ m = 'm') then some true
    else none
  | _ => none

/-- The optional-seconds tail `(?::(\d{2}))?\s*(AM|PM)$`: a leading colon
commits to two digit characters of seconds (the regex cannot backtrack past
the colon because `\s*(AM|PM)` never matches a colon); otherwise the
seconds default to 0. -/
def matchSecTail (cs : List Char) : Option (Nat × Bool) :=
  match cs with
  | c :: s1 :: s2 :: rest =>
    if c = ':' then
      if s1.isDigit ∧ s2.isDigit then
        (matchAmPmTail rest).map fun pm => (10 * charVal s1 + charVal s2, pm)
      else none
    else (matchAmPmTail cs).map fun pm => (0, pm)
  | _ => (matchAmPmTail cs).map fun pm => (0, pm)

/-- Minutes then optional seconds then AM/PM: `(\d{2})(?::(\d{2}))?\s*(AM|PM)$`.
Exactly two minute digits can match: a third digit would have to be matched
by `\s*(AM|PM)`, which is impossible. -/
def matchMinTail (cs : List Char) : Option (Nat × Nat × Bool) :=
  match cs with
  | m1 :: m2 :: rest =>
    if m1.isDigit ∧ m2.isDigit then
      (matchSecTail rest).map fun st => (10 * charVal m1 + charVal m2, st)
    else none
  | _ => none

/-- Continuation of `matchTime` after a two-digit hour: the next character
must be the colon. -/
def matchTimeTwo (h1 h2 : Char) (cs : List Char) : Option (Nat × Nat × Nat × Bool) :=
  match cs with
  | c3 :: rest2 =>
    if c3 = ':' then
      (matchMinTail rest2).map fun t => (10 * charVal h1 + charVal h2, t)
    else none
  | [] => none

/-- The time regex `^(\d{1,2}):(\d{2})(?::(\d{2}))?\s*(AM|PM)$`: the greedy
one-or-two-digit hour is deterministic because the character after the hour
must be a colon.  Returns `some (hour, minute, second, isPM)`. -/
def matchTime (cs : List Char) : Option (Nat × Nat × Nat × Bool) :=
  match cs with
  | h1 :: c2 :: rest =>
    if h1.isDigit then
      if c2 = ':' then
        (matchMinTail rest).map fun t => (charVal h1, t)
      else if c2.isDigit then
        matchTimeTwo h1 c2 rest
      else none
    else none
  | _ => none

/-- The date-and-time regex
`^(\d{2})\/(\d{2})\s+(\d{1,2}):(\d{2})(?::(\d{2}))?\s*(AM|PM)$`: two month
digits, a slash, two day digits, at least one whitespace, then the time
part.  Returns `some (month, day, hour, minute, second, isPM)`. -/
def matchDateTime (cs : List Char) : Option (Nat × Nat × Nat × Nat × Nat × Bool) :=
  match cs with
  | n1 :: n2 :: sl :: d1 :: d2 :: w :: rest =>
    if n1.isDigit ∧ n2.isDigit ∧ sl = '/' ∧ d1.isDigit ∧ d2.isDigit ∧ isWs w then
      (matchTime (rest.dropWhile isWs)).map fun t =>
        (10 * charVal n1 + charVal n2, 10 * charVal d1 + charVal d2, t)
    else none
  | _ => none

/-- `parseTimestamp` (parsers module): trim, reject the empty string, strip
a trailing timezone abbreviation, then try the `MM/DD HH:MM[:SS] AM|PM`
regex and fall back to the `HH:MM[:SS] AM|PM` regex.  A missing year
defaults to the current year; the date-less form defaults to today's month
and day; `Date` receives the 0-based month. -/
def parseTimestamp (today : Today) (ts : List Char) : Option LDate :=
  let t := trimChars ts
  if t.isEmpty then none
  else
    let t2 := stripTz t
    match matchDateTime t2 with
    | some (mo, d, h, mi, s, pm) =>
      some ⟨today.year, (mo : Int) - 1, (d : Int), (to24Hour h pm : Int), (mi : Int), (s : Int)⟩
    | none =>
      match matchTime t2 with
      | some (h, mi, s, pm) =>
        some ⟨today.year, today.month0, today.day, (to24Hour h pm : Int), (mi : Int), (s : Int)⟩
      | none => none

/-- The emoji-to-event-type table (`EMOJI_TYPE_MAP`), in insertion order;
each key is the scalar sequence of the source's string literal. -/
def EMOJI_TYPE_MAP : List (List Char × String) :=
  [(['🔧'], "tool"), (['📖'], "read"), (['🔍'], "search"), (['🌐'], "fetch"),
   (['🔌'], "mcp"), (['⚡'], "skill"), (['🚀'], "agent_spawn"),
   (['🤖'], "agent_task"), (['🛬'], "agent_finish"), (['🟢'], "session_start"),
   (['🔴'], "session_end"), (['🏁'], "response_finish"), (['📐'], "plan"),
   (['👋'], "input_needed"), (['🔐'], "permission"), (['❓'], "question"),
   (['✅'], "completed"), (['⚠', '️'], "compact"), (['📋'], "task"),
   (['💬'], "message")]

/-- Substring containment, as JS `String.prototype.includes`. -/
def containsSeq (needle : List Char) : List Char → Bool
  | [] => needle.isEmpty
  | c :: rest => needle.isPrefixOf (c :: rest) || containsSeq needle rest

/-- Scan the event text for the first table entry (in table order) whose
emoji occurs in the text; no match yields no emoji and type `unknown`. -/
def findEmoji (event : List Char) : List Char × String :=
  match EMOJI_TYPE_MAP.find? fun em => containsSeq em.1 event with
  | some em => em
  | none => ([], "unknown")

/-- A parsed log entry at the character level (the parser-side `LogEntry`);
`parsedTimestamp` carries the `Date`-constructor arguments. -/
structure ParsedEntry where
  timestamp : List Char
  parsedTimestamp : Option LDate
  project : List Char
  branch : List Char
  emoji : List Char
  eventType : String
  eventText : List Char
deriving DecidableEq, Repr

/-- `parseLogLine` (parsers module): strip ANSI escapes, trim, reject empty
lines, split on the box-drawing pipe `│`; four or more fields give
`(timestamp, project, branch, event)`, two or three give `(timestamp, event)`
with empty project and branch, fewer leave the whole line as event text;
a branch of `-` is normalised to empty and entries without a project are
discarded. -/
def parseLogLine (today : Today) (rawLine : List Char) : Option ParsedEntry :=
  let clean := trimChars (stripAnsi rawLine)
  if clean.isEmpty then none
  else
    let parts := splitOnChar '│' clean
    let fields :=
      if 4 ≤ parts.length then
        (trimChars (parts.getD 0 []), trimChars (parts.getD 1 []),
          trimChars (parts.getD 2 []),
          trimChars (List.intercalate ['│'] (parts.drop 3)))
      else if 2 ≤ parts.length then
        (trimChars (parts.getD 0 []), [], [],
          trimChars (List.intercalate ['│'] (parts.drop 1)))
      else ([], [], [], clean)
    let em := findEmoji fields.2.2.2
    if fields.2.1.isEmpty then none
    else some
      { timestamp := fields.1
        parsedTimestamp := parseTimestamp today fields.1
        project := fields.2.1
        branch := if fields.2.2.1 = ['-'] then [] else fields.2.2.1
        emoji := em.1
        eventType := em.2
        eventText := fields.2.2.2 }

/-- C7: log-line framing.  After ANSI stripping and trimming, the line is
split on the pipe delimiter: with at most three fields the parser yields no
entry (two- and three-field lines carry an empty project, which is
discarded, as are no-field lines); with four or more fields it yields the
entry `(timestamp, project, branch, event-text)` — a branch literal `-`
normalised to empty, the event text rejoining every field past the third —
unless the project field trims to empty, in which case the line is
discarded. -/
theorem parseLogLine_framing (today : Today) (raw : List Char) :
    (((splitOnChar '│' (trimChars (stripAnsi raw))).length ≤ 3) →
        parseLogLine today raw = none) ∧
    (4 ≤ (splitOnChar '│' (trimChars (stripAnsi raw))).length →
      (trimChars ((splitOnChar '│' (trimChars (stripAnsi raw))).getD 1 []) = [] →
          parseLogLine today raw = none) ∧
      (trimChars ((splitOnChar '│' (trimChars (stripAnsi raw))).getD 1 []) ≠ [] →
        parseLogLine today raw = some
          { timestamp := trimChars ((splitOnChar '│' (trimChars (stripAnsi raw))).getD 0 [])
            parsedTimestamp := parseTimestamp today
              (trimChars ((splitOnChar '│' (trimChars (stripAnsi raw))).getD 0 []))
            project := trimChars ((splitOnChar '│' (trimChars (stripAnsi raw))).getD 1 [])
            branch :=
              if trimChars ((splitOnChar '│' (trimChars (stripAnsi raw))).getD 2 []) = ['-']
              then []
              else trimChars ((splitOnChar '│' (trimChars (stripAnsi raw))).getD 2 [])
            emoji := (findEmoji (trimChars (List.intercalate ['│']
              ((splitOnChar '│' (trimChars (stripAnsi raw))).drop 3)))).1
            eventType := (findEmoji (trimChars (List.intercalate ['│']
              ((splitOnChar '│' (trimChars (stripAnsi raw))).drop 3)))).2
            eventText := trimChars (List.intercalate ['│']
              ((splitOnChar '│' (trimChars (stripAnsi raw))).drop 3)) })) := by
  set clean := trimChars (stripAnsi raw) with hcleandef
  set parts := splitOnChar '│' clean with hpartsdef
  by_cases hclean : clean.isEmpty
  · have hnil : clean = [] := List.isEmpty_iff.mp hclean
    have hparts : parts = [[]] := by rw [hpartsdef, hnil]; rfl
    have hnone : parseLogLine today raw = none := by
      rw [parseLogLine]
      simp only [← hcleandef, hclean, if_true]
    refine ⟨fun _ => hnone, fun h4 => ?_⟩
    rw [hparts] at h4
    simp at h4
  · have hcleanf : clean.isEmpty = false := Bool.not_eq_true _ |>.mp hclean
    by_cases h4 : 4 ≤ parts.length
    · have hbody : parseLogLine today raw =
          (if (trimChars (parts.getD 1 [])).isEmpty then none
           else some
            { timestamp := trimChars (parts.getD 0 [])
              parsedTimestamp := parseTimestamp today (trimChars (parts.getD 0 []))
              project := trimChars (parts.getD 1 [])
              branch :=
                if trimChars (parts.getD 2 []) = ['-'] then []
                else trimChars (parts.getD 2 [])
              emoji := (findEmoji (trimChars (List.intercalate ['│'] (parts.drop 3)))).1
              eventType := (findEmoji (trimChars (List.intercalate ['│'] (parts.drop 3)))).2
              eventText := trimChars (List.intercalate ['│'] (parts.drop 3)) }) := by
        rw [parseLogLine]
        simp only [← hcleandef, hcleanf, Bool.false_eq_true, if_false, ← hpartsdef,
          h4, if_true]
      refine ⟨fun h3 => absurd h4 (by omega), fun _ => ⟨fun hproj => ?_, fun hproj => ?_⟩⟩
      · rw [hbody, if_pos (List.isEmpty_iff.mpr hproj)]
      · rw [hbody, if_neg (fun hh => hproj (List.isEmpty_iff.mp hh))]
    · have hnone : parseLogLine today raw = none := by
        rw [parseLogLine]
        simp only [← hcleandef, hcleanf, Bool.false_eq_true, if_false, ← hpartsdef,
          h4, if_false]
        by_cases h2 : 2 ≤ parts.length
        · simp only [h2, if_true]
          rfl
        · simp only [h2, if_false]
          rfl
      exact ⟨fun _ => hnone, fun hh => absurd hh h4⟩

theorem parseLogLine_framing_witness :
    parseLogLine ⟨2026, 9, 12⟩ "10:00 AM│proj│-│🔧 build".toList = some
      { timestamp := trimChars ((splitOnChar '│' (trimChars
          (stripAnsi "10:00 AM│proj│-│🔧 build".toList))).getD 0 [])
        parsedTimestamp := parseTimestamp ⟨2026, 9, 12⟩
          (trimChars ((splitOnChar '│' (trimChars
            (stripAnsi "10:00 AM│proj│-│🔧 build".toList))).getD 0 []))
        project := trimChars ((splitOnChar '│' (trimChars
          (stripAnsi "10:00 AM│proj│-│🔧 build".toList))).getD 1 [])
        branch :=
          if trimChars ((splitOnChar '│' (trimChars
              (stripAnsi "10:00 AM│proj│-│🔧 build".toList))).getD 2 []) = ['-']
          then []
          else trimChars ((splitOnChar '│' (trimChars
            (stripAnsi "10:00 AM│proj│-│🔧 build".toList))).getD 2 [])
        emoji := (findEmoji (trimChars (List.intercalate ['│']
          ((splitOnChar '│' (trimChars
            (stripAnsi "10:00 AM│proj│-│🔧 build".toList))).drop 3)))).1
        eventType := (findEmoji (trimChars (List.intercalate ['│']
          ((splitOnChar '│' (trimChars
            (stripAnsi "10:00 AM│proj│-│🔧 build".toList))).drop 3)))).2
        eventText := trimChars (List.intercalate ['│']
          ((splitOnChar '│' (trimChars
            (stripAnsi "10:00 AM│proj│-│🔧 build".toList))).drop 3)) } :=
  ((parseLogLine_framing ⟨2026, 9, 12⟩ "10:00 AM│proj│-│🔧 build".toList).2
    (by decide)).2 (by decide)

/-! ### Timestamp forms and their parses (C8) -/

/-- Render a one- or two-digit hour field. -/
def renderHour (h1 : Char) (h2 : Option Char) : List Char :=
  match h2 with
  | some c => [h1, c]
  | none => [h1]

/-- Render the optional `:SS` seconds field. -/
def renderSec (sec : Option (Char × Char)) : List Char :=
  match sec with
  | some p => [':', p.1, p.2]
  | none => []

/-- Render the meridiem indicator. -/
def renderAmPm (pm : Bool) : List Char :=
  if pm then ['P', 'M'] else ['A', 'M']

/-- Render the optional trailing timezone abbreviation (with its separating
space). -/
def renderTz (tz : Option (Char × Char × Char)) : List Char :=
  match tz with
  | some t => [' ', t.1, t.2.1, t.2.2]
  | none => []

/-- The `HH:MM[:SS] AM|PM` form, without timezone suffix. -/
def renderTimeBase (h1 : Char) (h2 : Option Char) (m1 m2 : Char)
    (sec : Option (Char × Char)) (pm : Bool) : List Char :=
  renderHour h1 h2 ++ [':', m1, m2] ++ renderSec sec ++ [' '] ++ renderAmPm pm

/-- The `MM/DD HH:MM[:SS] AM|PM` form, without timezone suffix. -/
def renderDateBase (n1 n2 d1 d2 h1 : Char) (h2 : Option Char) (m1 m2 : Char)
    (sec : Option (Char × Char)) (pm : Bool) : List Char :=
  [n1, n2, '/', d1, d2, ' '] ++ renderTimeBase h1 h2 m1 m2 sec pm

/-- Numeric value of a rendered hour field. -/
def hourVal (h1 : Char) (h2 : Option Char) : Nat :=
  match h2 with
  | some c => 10 * charVal h1 + charVal c
  | none => charVal h1

/-- Numeric value of a rendered seconds field (0 when missing). -/
def secVal (sec : Option (Char × Char)) : Nat :=
  match sec with
  | some p => 10 * charVal p.1 + charVal p.2
  | none => 0

theorem isWs_cases (c : Char) (h : isWs c = true) :
    c = ' ' ∨ c = '\t' ∨ c = '\r' ∨ c = '\n' := by
  rw [isWs] at h
  simp [Char.isWhitespace] at h
  tauto

theorem digit_not_ws (c : Char) (h : c.isDigit = true) : isWs c = false := by
  rcases Bool.eq_false_or_eq_true (isWs c) with ht | hf
  · exfalso
    rcases isWs_cases c ht with h1 | h1 | h1 | h1 <;> (subst h1; exact absurd h (by decide))
  · exact hf

theorem ne_of_isDigit (c d : Char) (h : c.isDigit = true) (hd : d.isDigit = false) :
    c ≠ d := by
  intro he
  rw [he, hd] at h
  exact absurd h (by decide)

theorem dropWhile_eq_self_of_head (p : Char → Bool) (l : List Char)
    (h : ∀ c, l.head? = some c → p c = false) : l.dropWhile p = l := by
  cases l with
  | nil => rfl
  | cons a t =>
    rw [List.dropWhile_cons, h a rfl]
    simp

theorem trimChars_eq_self (l : List Char)
    (h1 : ∀ c, l.head? = some c → isWs c = false)
    (h2 : ∀ c, l.getLast? = some c → isWs c = false) :
    trimChars l = l := by
  rw [trimChars, dropWhile_eq_self_of_head isWs l h1]
  rw [dropWhile_eq_self_of_head isWs l.reverse
    (fun c hc => h2 c ((List.head?_reverse l).symm.trans hc))]
  exact List.reverse_reverse l

theorem getLast?_append_of_ne_nil (l1 l2 : List Char) (h : l2 ≠ []) :
    (l1 ++ l2).getLast? = l2.getLast? := by
  rw [List.getLast?_append]
  cases hx : l2.getLast? with
  | none => exact absurd (List.getLast?_eq_none_iff.mp hx) h
  | some a => rfl

theorem renderAmPm_ne_nil (pm : Bool) : renderAmPm pm ≠ [] := by
  cases pm <;> simp [renderAmPm]

theorem renderAmPm_getLast? (pm : Bool) : (renderAmPm pm).getLast? = some 'M' := by
  cases pm <;> rfl

theorem renderTimeBase_getLast? (h1 : Char) (h2 : Option Char) (m1 m2 : Char)
    (sec : Option (Char × Char)) (pm : Bool) :
    (renderTimeBase h1 h2 m1 m2 sec pm).getLast? = some 'M' := by
  rw [renderTimeBase, getLast?_append_of_ne_nil _ _ (renderAmPm_ne_nil pm)]
  exact renderAmPm_getLast? pm

theorem renderDateBase_getLast? (n1 n2 d1 d2 h1 : Char) (h2 : Option Char)
    (m1 m2 : Char) (sec : Option (Char × Char)) (pm : Bool) :
    (renderDateBase n1 n2 d1 d2 h1 h2 m1 m2 sec pm).getLast? = some 'M' := by
  rw [renderDateBase, getLast?_append_of_ne_nil _ _ (by
    rw [renderTimeBase]
    intro hx
    exact renderAmPm_ne_nil pm (List.append_eq_nil.mp hx).2)]
  exact renderTimeBase_getLast? h1 h2 m1 m2 sec pm

theorem isTzAbbr_elim (a b c : Char) (h : isTzAbbr [a, b, c] = true) :
    c.toUpper = 'T' ∨ c.toUpper = 'C' := by
  simp only [isTzAbbr, List.map, decide_eq_true_eq, List.cons.injEq, and_true] at h
  rcases h with ⟨_, _, h3⟩ | ⟨_, _, h3⟩ | ⟨_, _, h3⟩ | ⟨_, _, h3⟩ | ⟨_, _, h3⟩ |
    ⟨_, _, h3⟩ | ⟨_, _, h3⟩ | ⟨_, _, h3⟩ | ⟨_, _, h3⟩ <;>
    first
      | exact Or.inl h3
      | exact Or.inr h3

theorem isTzAbbr_not_ws (a b c : Char) (h : isTzAbbr [a, b, c] = true) :
    isWs c = false := by
  rcases Bool.eq_false_or_eq_true (isWs c) with ht | hf
  · exfalso
    rcases isTzAbbr_elim a b c h with hu | hu <;>
      rcases isWs_cases c ht with h1 | h1 | h1 | h1 <;>
        (subst h1; exact absurd hu (by decide))
  · exact hf

theorem stripTz_eq_self_of_getLast_M (l : List Char) (hlast : l.getLast? = some 'M') :
    stripTz l = l := by
  rw [stripTz]
  split
  case h_2 => rfl
  case h_1 c3 c2 c1 rest hrev =>
    have hc3 : c3 = 'M' := by
      have hh := (List.head?_reverse l).trans hlast
      rw [hrev] at hh
      exact Option.some_inj.mp hh
    have habbr : isTzAbbr [c1, c2, c3] = false := by
      rcases Bool.eq_false_or_eq_true (isTzAbbr [c1, c2, c3]) with ht | hf
      · exfalso
        subst hc3
        rcases isTzAbbr_elim c1 c2 'M' ht with hu | hu <;>
          exact absurd hu (by decide)
      · exact hf
    rw [habbr]
    simp

theorem stripTz_strips_abbr (base : List Char) (t1 t2 t3 : Char)
    (habbr : isTzAbbr [t1, t2, t3] = true)
    (hlast : base.getLast? = some 'M') :
    stripTz (base ++ [' ', t1, t2, t3]) = base := by
  have hrev : (base ++ [' ', t1, t2, t3]).reverse = t3 :: t2 :: t1 :: ' ' :: base.reverse := by
    simp
  rw [stripTz]
  split
  case h_2 hno =>
    exact absurd hrev (hno t3 t2 t1 (' ' :: base.reverse))
  case h_1 c3 c2 c1 rest heq =>
    rw [hrev] at heq
    simp only [List.cons.injEq] at heq
    obtain ⟨h3, h2, h1, hrest⟩ := heq
    subst h3; subst h2; subst h1; subst hrest
    have hws : isWs ' ' = true := rfl
    rw [habbr]
    show (if (true && isWs ' ') = true then
        ((' ' :: base.reverse).dropWhile isWs).reverse
      else base ++ [' ', t1, t2, t3]) = base
    rw [hws]
    simp only [Bool.and_self, if_pos]
    rw [List.dropWhile_cons, hws]
    simp only [if_pos]
    rw [dropWhile_eq_self_of_head isWs base.reverse (fun c hc => by
      have hcM : c = 'M' := by
        have hh := (List.head?_reverse base).trans hlast
        rw [hc] at hh
        exact Option.some_inj.mp hh
      subst hcM
      rfl)]
    exact List.reverse_reverse base

theorem matchSecTail_cons (c s1 s2 : Char) (rest : List Char) :
    matchSecTail (c :: s1 :: s2 :: rest) =
      if c = ':' then
        if s1.isDigit ∧ s2.isDigit then
          (matchAmPmTail rest).map fun pm => (10 * charVal s1 + charVal s2, pm)
        else none
      else (matchAmPmTail (c :: s1 :: s2 :: rest)).map fun pm => (0, pm) := rfl

theorem matchMinTail_cons (m1 m2 : Char) (rest : List Char) :
    matchMinTail (m1 :: m2 :: rest) =
      if m1.isDigit ∧ m2.isDigit then
        (matchSecTail rest).map fun st => (10 * charVal m1 + charVal m2, st)
      else none := rfl

theorem matchTime_cons (a b : Char) (rest : List Char) :
    matchTime (a :: b :: rest) =
      if a.isDigit then
        if b = ':' then (matchMinTail rest).map fun t => (charVal a, t)
        else if b.isDigit then matchTimeTwo a b rest
        else none
      else none := rfl

theorem matchTimeTwo_cons (h1 h2 c3 : Char) (rest2 : List Char) :
    matchTimeTwo h1 h2 (c3 :: rest2) =
      if c3 = ':' then
        (matchMinTail rest2).map fun t => (10 * charVal h1 + charVal h2, t)
      else none := rfl

theorem matchDateTime_cons (n1 n2 sl d1 d2 w : Char) (rest : List Char) :
    matchDateTime (n1 :: n2 :: sl :: d1 :: d2 :: w :: rest) =
      if n1.isDigit ∧ n2.isDigit ∧ sl = '/' ∧ d1.isDigit ∧ d2.isDigit ∧ isWs w then
        (matchTime (rest.dropWhile isWs)).map fun t =>
          (10 * charVal n1 + charVal n2, 10 * charVal d1 + charVal d2, t)
      else none := rfl

theorem matchAmPmTail_render (pm : Bool) :
    matchAmPmTail (' ' :: renderAmPm pm) = some pm := by
  cases pm <;> rfl

theorem matchSecTail_render (sec : Option (Char × Char)) (pm : Bool)
    (hsec : ∀ a b, sec = some (a, b) → a.isDigit = true ∧ b.isDigit = true) :
    matchSecTail (renderSec sec ++ [' '] ++ renderAmPm pm) = some (secVal sec, pm) := by
  cases sec with
  | none => cases pm <;> rfl
  | some p =>
    obtain ⟨a, b⟩ := p
    obtain ⟨ha, hb⟩ := hsec a b rfl
    show matchSecTail (':' :: a :: b :: (' ' :: renderAmPm pm)) = some (secVal (some (a, b)), pm)
    rw [matchSecTail_cons, if_pos rfl, if_pos ⟨ha, hb⟩, matchAmPmTail_render]
    rfl

theorem matchMinTail_render (m1 m2 : Char) (sec : Option (Char × Char)) (pm : Bool)
    (hm1 : m1.isDigit = true) (hm2 : m2.isDigit = true)
    (hsec : ∀ a b, sec = some (a, b) → a.isDigit = true ∧ b.isDigit = true) :
    matchMinTail (m1 :: m2 :: (renderSec sec ++ [' '] ++ renderAmPm pm)) =
      some (10 * charVal m1 + charVal m2, secVal sec, pm) := by
  rw [matchMinTail_cons, if_pos ⟨hm1, hm2⟩, matchSecTail_render sec pm hsec]
  rfl

theorem renderTimeBase_eq_cons (h1 : Char) (h2 : Option Char) (m1 m2 : Char)
    (sec : Option (Char × Char)) (pm : Bool) :
    renderTimeBase h1 h2 m1 m2 sec pm =
      renderHour h1 h2 ++ (':' :: m1 :: m2 :: (renderSec sec ++ [' '] ++ renderAmPm pm)) := by
  cases h2 <;> simp [renderTimeBase, renderHour]

theorem matchTime_render (h1 : Char) (h2 : Option Char) (m1 m2 : Char)
    (sec : Option (Char × Char)) (pm : Bool)
    (hh1 : h1.isDigit = true) (hh2 : ∀ c, h2 = some c → c.isDigit = true)
    (hm1 : m1.isDigit = true) (hm2 : m2.isDigit = true)
    (hsec : ∀ a b, sec = some (a, b) → a.isDigit = true ∧ b.isDigit = true) :
    matchTime (renderTimeBase h1 h2 m1 m2 sec pm) =
      some (hourVal h1 h2, 10 * charVal m1 + charVal m2, secVal sec, pm) := by
  rw [renderTimeBase_eq_cons]
  cases h2 with
  | none =>
    show matchTime (h1 :: ':' :: m1 :: m2 :: (renderSec sec ++ [' '] ++ renderAmPm pm)) = _
    rw [matchTime_cons, if_pos hh1, if_pos rfl,
      matchMinTail_render m1 m2 sec pm hm1 hm2 hsec]
    rfl
  | some hc =>
    have hhc : hc.isDigit = true := hh2 hc rfl
    show matchTime (h1 :: hc :: ':' :: m1 :: m2 ::
      (renderSec sec ++ [' '] ++ renderAmPm pm)) = _
    rw [matchTime_cons, if_pos hh1, if_neg (ne_of_isDigit hc ':' hhc (by decide)),
      if_pos hhc, matchTimeTwo_cons, if_pos rfl,
      matchMinTail_render m1 m2 sec pm hm1 hm2 hsec]
    rfl

theorem renderTimeBase_head? (h1 : Char) (h2 : Option Char) (m1 m2 : Char)
    (sec : Option (Char × Char)) (pm : Bool) :
    (renderTimeBase h1 h2 m1 m2 sec pm).head? = some h1 := by
  cases h2 <;> rfl

theorem matchDateTime_render (n1 n2 d1 d2 h1 : Char) (h2 : Option Char) (m1 m2 : Char)
    (sec : Option (Char × Char)) (pm : Bool)
    (hn1 : n1.isDigit = true) (hn2 : n2.isDigit = true)
    (hd1 : d1.isDigit = true) (hd2 : d2.isDigit = true)
    (hh1 : h1.isDigit = true) (hh2 : ∀ c, h2 = some c → c.isDigit = true)
    (hm1 : m1.isDigit = true) (hm2 : m2.isDigit = true)
    (hsec : ∀ a b, sec = some (a, b) → a.isDigit = true ∧ b.isDigit = true) :
    matchDateTime (renderDateBase n1 n2 d1 d2 h1 h2 m1 m2 sec pm) =
      some (10 * charVal n1 + charVal n2, 10 * charVal d1 + charVal d2,
        hourVal h1 h2, 10 * charVal m1 + charVal m2, secVal sec, pm) := by
  show matchDateTime (n1 :: n2 :: '/' :: d1 :: d2 :: ' ' ::
    renderTimeBase h1 h2 m1 m2 sec pm) = _
  rw [matchDateTime_cons, if_pos ⟨hn1, hn2, rfl, hd1, hd2, rfl⟩]
  rw [dropWhile_eq_self_of_head isWs _ (fun c hc => by
    rw [renderTimeBase_head? h1 h2 m1 m2 sec pm] at hc
    exact Option.some_inj.mp hc ▸ digit_not_ws h1 hh1)]
  rw [matchTime_render h1 h2 m1 m2 sec pm hh1 hh2 hm1 hm2 hsec]
  rfl

theorem matchDateTime_timeBase_none (h1 : Char) (h2 : Option Char) (m1 m2 : Char)
    (sec : Option (Char × Char)) (pm : Bool) :
    matchDateTime (renderTimeBase h1 h2 m1 m2 sec pm) = none := by
  rw [renderTimeBase_eq_cons]
  cases h2 with
  | none =>
    cases sec with
    | none =>
      cases pm
      · show matchDateTime (h1 :: ':' :: m1 :: m2 :: ' ' :: 'A' :: ['M']) = none
        rw [matchDateTime_cons]
        exact if_neg (by rintro ⟨-, hx, -⟩; exact absurd hx (by decide))
      · show matchDateTime (h1 :: ':' :: m1 :: m2 :: ' ' :: 'P' :: ['M']) = none
        rw [matchDateTime_cons]
        exact if_neg (by rintro ⟨-, hx, -⟩; exact absurd hx (by decide))
    | some p =>
      show matchDateTime (h1 :: ':' :: m1 :: m2 :: ':' :: p.1 ::
        (p.2 :: ' ' :: renderAmPm pm)) = none
      rw [matchDateTime_cons]
      exact if_neg (by rintro ⟨-, hx, -⟩; exact absurd hx (by decide))
  | some hc =>
    cases sec with
    | none =>
      cases pm
      · show matchDateTime (h1 :: hc :: ':' :: m1 :: m2 :: ' ' :: ['A', 'M']) = none
        rw [matchDateTime_cons]
        exact if_neg (by rintro ⟨-, -, hx, -⟩; exact absurd hx (by decide))
      · show matchDateTime (h1 :: hc :: ':' :: m1 :: m2 :: ' ' :: ['P', 'M']) = none
        rw [matchDateTime_cons]
        exact if_neg (by rintro ⟨-, -, hx, -⟩; exact absurd hx (by decide))
    | some p =>
      show matchDateTime (h1 :: hc :: ':' :: m1 :: m2 :: ':' ::
        (p.1 :: p.2 :: ' ' :: renderAmPm pm)) = none
      rw [matchDateTime_cons]
      exact if_neg (by rintro ⟨-, -, hx, -⟩; exact absurd hx (by decide))

/-- C8: timestamp parsing.  For every string of the form
`MM/DD HH:MM[:SS] AM|PM` or `HH:MM[:SS] AM|PM` (digits arbitrary, one- or
two-digit hour, optional seconds), optionally followed by one of the
timezone abbreviations the source strips
(`PST/PDT/EST/EDT/CST/CDT/MST/MDT/UTC`, case-insensitively),
`parseTimestamp` strips the abbreviation and returns a date: the year
defaults to the current year, the date-less form defaults to today's month
and day, and the 12-hour time is converted to 24-hour.  A string on which
neither regex matches (after trimming and timezone stripping) yields
`none`. -/
theorem parseTimestamp_recognised_forms :
    (∀ (today : Today) (n1 n2 d1 d2 h1 : Char) (h2 : Option Char) (m1 m2 : Char)
        (sec : Option (Char × Char)) (pm : Bool) (tz : Option (Char × Char × Char)),
      n1.isDigit = true → n2.isDigit = true → d1.isDigit = true → d2.isDigit = true →
      h1.isDigit = true → (∀ c, h2 = some c → c.isDigit = true) →
      m1.isDigit = true → m2.isDigit = true →
      (∀ a b, sec = some (a, b) → a.isDigit = true ∧ b.isDigit = true) →
      (∀ a b c, tz = some (a, b, c) → isTzAbbr [a, b, c] = true) →
      parseTimestamp today
          (renderDateBase n1 n2 d1 d2 h1 h2 m1 m2 sec pm ++ renderTz tz) =
        some ⟨today.year, (10 * charVal n1 + charVal n2 : Nat) - 1,
          (10 * charVal d1 + charVal d2 : Nat), (to24Hour (hourVal h1 h2) pm : Nat),
          (10 * charVal m1 + charVal m2 : Nat), (secVal sec : Nat)⟩) ∧
    (∀ (today : Today) (h1 : Char) (h2 : Option Char) (m1 m2 : Char)
        (sec : Option (Char × Char)) (pm : Bool) (tz : Option (Char × Char × Char)),
      h1.isDigit = true → (∀ c, h2 = some c → c.isDigit = true) →
      m1.isDigit = true → m2.isDigit = true →
      (∀ a b, sec = some (a, b) → a.isDigit = true ∧ b.isDigit = true) →
      (∀ a b c, tz = some (a, b, c) → isTzAbbr [a, b, c] = true) →
      parseTimestamp today (renderTimeBase h1 h2 m1 m2 sec pm ++ renderTz tz) =
        some ⟨today.year, today.month0, today.day, (to24Hour (hourVal h1 h2) pm : Nat),
          (10 * charVal m1 + charVal m2 : Nat), (secVal sec : Nat)⟩) ∧
    (∀ (today : Today) (ts : List Char),
      parseTimestamp today ts = none ↔
        matchDateTime (stripTz (trimChars ts)) = none ∧
        matchTime (stripTz (trimChars ts)) = none) := by
  have hfull : ∀ (base : List Char) (tz : Option (Char × Char × Char)),
      (∀ a b c, tz = some (a, b, c) → isTzAbbr [a, b, c] = true) →
      base.getLast? = some 'M' →
      stripTz (base ++ renderTz tz) = base ∧
      (∀ c, (base ++ renderTz tz).getLast? = some c → isWs c = false) := by
    intro base tz htz hM
    cases tz with
    | none =>
      rw [renderTz, List.append_nil]
      exact ⟨stripTz_eq_self_of_getLast_M base hM, fun c hc => by
        rw [hM] at hc
        rw [← Option.some_inj.mp hc]
        rfl⟩
    | some t =>
      obtain ⟨a, b, c⟩ := t
      have habbr := htz a b c rfl
      constructor
      · exact stripTz_strips_abbr base a b c habbr hM
      · intro x hx
        rw [renderTz] at hx
        rw [getLast?_append_of_ne_nil _ _ (by simp)] at hx
        have : x = c := by
          have h4 : ([' ', a, b, c] : List Char).getLast? = some c := by
            simp [List.getLast?]
          rw [h4] at hx
          exact (Option.some_inj.mp hx).symm
        subst this
        exact isTzAbbr_not_ws a b x habbr
  refine ⟨?_, ?_, ?_⟩
  · intro today n1 n2 d1 d2 h1 h2 m1 m2 sec pm tz hn1 hn2 hd1 hd2 hh1 hh2 hm1 hm2 hsec htz
    obtain ⟨hstrip, hlastws⟩ := hfull (renderDateBase n1 n2 d1 d2 h1 h2 m1 m2 sec pm) tz htz
      (renderDateBase_getLast? n1 n2 d1 d2 h1 h2 m1 m2 sec pm)
    have hhead : ∀ c, (renderDateBase n1 n2 d1 d2 h1 h2 m1 m2 sec pm ++
        renderTz tz).head? = some c → isWs c = false := by
      intro c hc
      have hsome : (renderDateBase n1 n2 d1 d2 h1 h2 m1 m2 sec pm ++
          renderTz tz).head? = some n1 := rfl
      rw [hsome] at hc
      rw [← Option.some_inj.mp hc]
      exact digit_not_ws n1 hn1
    have htrim := trimChars_eq_self _ hhead hlastws
    rw [parseTimestamp]
    simp only [htrim, hstrip]
    have hne : (renderDateBase n1 n2 d1 d2 h1 h2 m1 m2 sec pm ++
        renderTz tz).isEmpty = false := rfl
    rw [hne]
    simp only [Bool.false_eq_true, if_false]
    rw [matchDateTime_render n1 n2 d1 d2 h1 h2 m1 m2 sec pm
      hn1 hn2 hd1 hd2 hh1 hh2 hm1 hm2 hsec]
  · intro today h1 h2 m1 m2 sec pm tz hh1 hh2 hm1 hm2 hsec htz
    obtain ⟨hstrip, hlastws⟩ := hfull (renderTimeBase h1 h2 m1 m2 sec pm) tz htz
      (renderTimeBase_getLast? h1 h2 m1 m2 sec pm)
    have hhead : ∀ c, (renderTimeBase h1 h2 m1 m2 sec pm ++
        renderTz tz).head? = some c → isWs c = false := by
      intro c hc
      have hsome : (renderTimeBase h1 h2 m1 m2 sec pm ++ renderTz tz).head? = some h1 := by
        cases h2 <;> rfl
      rw [hsome] at hc
      rw [← Option.some_inj.mp hc]
      exact digit_not_ws h1 hh1
    have htrim := trimChars_eq_self _ hhead hlastws
    rw [parseTimestamp]
    simp only [htrim, hstrip]
    have hne : (renderTimeBase h1 h2 m1 m2 sec pm ++ renderTz tz).isEmpty = false := by
      cases h2 <;> rfl
    rw [hne]
    simp only [Bool.false_eq_true, if_false]
    rw [matchDateTime_timeBase_none h1 h2 m1 m2 sec pm]
    rw [matchTime_render h1 h2 m1 m2 sec pm hh1 hh2 hm1 hm2 hsec]
  · intro today ts
    rw [parseTimestamp]
    by_cases hemp : (trimChars ts).isEmpty
    · have h0 : trimChars ts = [] := List.isEmpty_iff.mp hemp
      rw [h0]
      exact ⟨fun _ => ⟨rfl, rfl⟩, fun _ => rfl⟩
    · have hnemp : (trimChars ts).isEmpty = false := Bool.not_eq_true _ |>.mp hemp
      rw [hnemp]
      simp only [Bool.false_eq_true, if_false]
      cases hd : matchDateTime (stripTz (trimChars ts)) with
      | some v =>
        obtain ⟨mo, d, h, mi, s, pm⟩ := v
        simp [hd]
      | none =>
        cases ht : matchTime (stripTz (trimChars ts)) with
        | some v =>
          obtain ⟨h, mi, s, pm⟩ := v
          simp [hd, ht]
        | none => simp [hd, ht]

theorem parseTimestamp_recognised_forms_witness :
    parseTimestamp ⟨2026, 9, 12⟩
        (renderDateBase '0' '3' '0' '4' '5' none '0' '6' none true ++
          renderTz (some ('P', 'S', 'T'))) =
      some ⟨2026, 2, 4, 17, 6, 0⟩ :=
  (parseTimestamp_recognised_forms.1 ⟨2026, 9, 12⟩ '0' '3' '0' '4' '5' none '0' '6'
    none true (some ('P', 'S', 'T')) (by decide) (by decide) (by decide) (by decide)
    (by decide) (fun c hc => by cases hc) (by decide) (by decide)
    (fun a b hab => by cases hab) (fun a b c habc => by
      cases Option.some_inj.mp habc; decide)).trans (by decide)

end LOExporter
